import Mathlib

/-!
Shallow embedding of the `roc-decimal-draft` repository (`src/lib.rs`):
a fixed-point decimal type `RocDec` with a signed 64-bit whole word `hi`
and an unsigned 64-bit fraction word `lo` holding 19 decimal digits.

Machine integers are modelled as `Int` (for `i64` values) and `Nat`
(for `u64`/`u128`/`U256` values) with explicit wrap-around (`% 2^w`)
exactly where the Rust code wraps.  Fallible operations (Rust `todo!()`
panics and `Result::Err`) are modelled with `Option`.
-/

/-- The two-word decimal representation from `lib.rs`:
`hi : i64` (whole part including the sign) and `lo : u64` (fraction). -/
structure RocDec where
  hi : Int
  lo : Nat
  deriving DecidableEq

namespace RocDec

/-- `RocDec::DECIMAL_MAX = 10_000_000_000_000_000_000` (`10^19`). -/
def DECIMAL_MAX : Nat := 10000000000000000000

/-- `i64::MIN`. -/
def I64MIN : Int := -9223372036854775808

/-- `i64::MAX`. -/
def I64MAX : Int := 9223372036854775807

/-- `u64::MAX`. -/
def U64MAX : Nat := 18446744073709551615

/-- `2^64`, the wrap modulus of `u64` arithmetic. -/
def U64MOD : Nat := 18446744073709551616

/-- `RocDec::new(hi, lo)`: total construction, no normalization. -/
def new (hi : Int) (lo : Nat) : RocDec := ⟨hi, lo⟩

end RocDec

/-- The reciprocal constant used by `decimalize` in `lib.rs`:
the ceiling of `2^190 / 10^19`. -/
def RECIP : Nat := 156927543384667019095894735580191660403

/-- `decimalize(num: u128) -> (u64, u64)` from `lib.rs`: multiplies by the
precomputed reciprocal in 256-bit arithmetic, shifts right by 190 bits and
truncates to `u64` (`res.as_u64()`), then recovers the low word with a
wrapping `u128` subtraction truncated to `u64`. -/
def decimalize (num : Nat) : Nat × Nat :=
  let res : Nat := num * RECIP % 2 ^ 256 / 2 ^ 190 % 2 ^ 64
  let lo : Nat := (num + 2 ^ 128 - res * RocDec.DECIMAL_MAX % 2 ^ 128) % 2 ^ 128 % 2 ^ 64
  (res, lo)

namespace RocDec

/-- `impl std::ops::Add for RocDec` from `lib.rs`.  Computes both the wrapped
sum and wrapped difference of the low words, selects by whether the two whole
words are on the same side of `is_positive`, propagates a signed carry into
the whole word, and fails (`todo!`, modelled as `none`) when the whole-word
combination leaves the `i64` range. -/
def add (a b : RocDec) : Option RocDec :=
  let lo_added := (a.lo + b.lo) % U64MOD
  let add_overflowed := decide (U64MOD ≤ a.lo + b.lo)
  let lo_subtracted := (a.lo + U64MOD - b.lo % U64MOD) % U64MOD
  let sub_overflowed := decide (a.lo < b.lo)
  let same_sign := decide (0 < a.hi) = decide (0 < b.hi)
  let lo := if same_sign then lo_added else lo_subtracted
  let hi_sign : Int := if 0 < a.hi then 1 else -1
  let overflowed := if same_sign then add_overflowed else sub_overflowed
  let hi_offset : Int := if overflowed then hi_sign else 0
  let hi1 := a.hi + hi_offset
  let hi2 := hi1 + b.hi
  if I64MIN ≤ hi1 ∧ hi1 ≤ I64MAX ∧ I64MIN ≤ hi2 ∧ hi2 ≤ I64MAX then
    some ⟨hi2, lo⟩
  else
    none

/-- `impl std::ops::Sub for RocDec` from `lib.rs`: the mirror image of `add`
(low words subtracted on same sign, added on different sign; whole words
subtracted with a borrow). -/
def sub (a b : RocDec) : Option RocDec :=
  let lo_added := (a.lo + b.lo) % U64MOD
  let add_overflowed := decide (U64MOD ≤ a.lo + b.lo)
  let lo_subtracted := (a.lo + U64MOD - b.lo % U64MOD) % U64MOD
  let sub_overflowed := decide (a.lo < b.lo)
  let same_sign := decide (0 < a.hi) = decide (0 < b.hi)
  let lo := if same_sign then lo_subtracted else lo_added
  let hi_sign : Int := if 0 < a.hi then 1 else -1
  let overflowed := if same_sign then sub_overflowed else add_overflowed
  let hi_offset : Int := if overflowed then hi_sign else 0
  let hi1 := a.hi - hi_offset
  let hi2 := hi1 - b.hi
  if I64MIN ≤ hi1 ∧ hi1 ≤ I64MAX ∧ I64MIN ≤ hi2 ∧ hi2 ≤ I64MAX then
    some ⟨hi2, lo⟩
  else
    none

/-- The unsigned core of `impl std::ops::Mul for RocDec`: takes the four
64-bit magnitudes, forms the four exact 128-bit cross products, decomposes
each with `decimalize`, and accumulates the columns `b`, `c`, `d` with the
carry flags exactly as `lib.rs` does.  Returns `(c, b)` when the overflow
guard (`c <= i64::MAX && d == 0 && !overflowed`) passes, otherwise `none`
(the `todo!("Overflow!")` panic). -/
def mulCore (self_hi self_lo other_hi other_lo : Nat) : Option (Nat × Nat) :=
  let ea := decimalize (self_lo * other_lo)
  let e := ea.1
  let gf := decimalize (self_hi * other_lo)
  let g := gf.1
  let f := gf.2
  let jh := decimalize (self_lo * other_hi)
  let j := jh.1
  let h := jh.2
  let lk := decimalize (self_hi * other_hi)
  let l := lk.1
  let k := lk.2
  let e_plus_f := (e + f) % U64MOD
  let b_carry1 : Nat := if U64MOD ≤ e + f then 1 else 0
  let b := (e_plus_f + h) % U64MOD
  let b_carry2 : Nat := if U64MOD ≤ e_plus_f + h then 1 else 0
  let g_plus_j := (g + j) % U64MOD
  let c_carry1 : Nat := if U64MOD ≤ g + j then 1 else 0
  let g_plus_j_plus_k := (g_plus_j + k) % U64MOD
  let c_carry2 : Nat := if U64MOD ≤ g_plus_j + k then 1 else 0
  let c_without_bcarry2 := (g_plus_j_plus_k + b_carry1) % U64MOD
  let c_carry3 : Nat := if U64MOD ≤ g_plus_j_plus_k + b_carry1 then 1 else 0
  let c := (c_without_bcarry2 + b_carry2) % U64MOD
  let c_carry4 : Nat := if U64MOD ≤ c_without_bcarry2 + b_carry2 then 1 else 0
  let d1 := (l + c_carry1) % U64MOD
  let ov1 := decide (U64MOD ≤ l + c_carry1)
  let d2 := (d1 + c_carry2) % U64MOD
  let ov2 := decide (U64MOD ≤ d1 + c_carry2)
  let d3 := (d2 + c_carry3) % U64MOD
  let ov3 := decide (U64MOD ≤ d2 + c_carry3)
  let d := (d3 + c_carry4) % U64MOD
  let ov4 := decide (U64MOD ≤ d3 + c_carry4)
  if c ≤ 9223372036854775807 ∧ d = 0 ∧ ¬(ov1 ∨ ov2 ∨ ov3 ∨ ov4) then
    some (c, b)
  else
    none

/-- `impl std::ops::Mul for RocDec` from `lib.rs`: the final sign is negative
iff exactly one whole word is negative; each whole word is converted to a
magnitude by `checked_abs` with the two `i64::MIN` special-case branches
(other operand zero, or other operand exactly one); the magnitudes go through
`mulCore`; the resulting whole word is sign-adjusted.  `none` models the
`todo!` panics. -/
def mul (a b : RocDec) : Option RocDec :=
  if a.hi = I64MIN then
    if b.hi = 0 ∧ b.lo = 0 then some ⟨0, 0⟩
    else if b.hi = 1 ∧ b.lo = 0 then some ⟨a.hi, 0⟩
    else none
  else if b.hi = I64MIN then
    if a.hi.natAbs = 0 ∧ a.lo = 0 then some ⟨0, 0⟩
    else if a.hi.natAbs = 1 ∧ a.lo = 0 then some ⟨b.hi, 0⟩
    else none
  else
    match mulCore a.hi.natAbs a.lo b.hi.natAbs b.lo with
    | some (c, b') =>
        some ⟨if (a.hi < 0) ↔ (b.hi < 0) then (c : Int) else -(c : Int), b'⟩
    | none => none

end RocDec

/-! ### Text codec: parsing (`TryFrom<&str>`) -/

/-- Rust's `str::split` on a single separator character, on `List Char`:
always yields at least one (possibly empty) segment. -/
def splitCh (c : Char) : List Char → List (List Char)
  | [] => [[]]
  | x :: xs =>
    if x = c then [] :: splitCh c xs
    else
      match splitCh c xs with
      | [] => [[x]]
      | y :: ys => (x :: y) :: ys

/-- The numeric value of a digit character, `none` on a non-digit. -/
def digitVal (c : Char) : Option Nat :=
  if '0' ≤ c ∧ c ≤ '9' then some (c.toNat - 48) else none

/-- Accumulate a decimal numeral left to right; `none` on any non-digit. -/
def digitsToNat (acc : Nat) : List Char → Option Nat
  | [] => some acc
  | c :: cs =>
    match digitVal c with
    | some d => digitsToNat (10 * acc + d) cs
    | none => none

/-- One or more decimal digits with the value bounded by `bound`
(the common digit loop of Rust's checked integer parsing; Rust checks
overflow digit by digit, which for an all-digit numeral is equivalent to
checking the final value, since the accumulator is monotone). -/
def parseDigitsLe (bound : Nat) (t : List Char) : Option Nat :=
  if t = [] then none
  else
    match digitsToNat 0 t with
    | some v => if v ≤ bound then some v else none
    | none => none

/-- Rust's `str::parse::<u64>()`: an optional leading `+`, then one or more
decimal digits, with the value required to fit in 64 bits. -/
def parseU64 (s : List Char) : Option Nat :=
  match s with
  | [] => none
  | c :: r => if c = '+' then parseDigitsLe RocDec.U64MAX r
              else parseDigitsLe RocDec.U64MAX (c :: r)

/-- Rust's `str::parse::<i64>()`: an optional leading `+` or `-`, then one or
more decimal digits, with the signed value required to fit in `i64`
(magnitude up to `2^63` when negative, `2^63 - 1` when non-negative). -/
def parseI64 (s : List Char) : Option Int :=
  match s with
  | [] => none
  | c :: r =>
    if c = '-' then (parseDigitsLe 9223372036854775808 r).map (fun v => -(v : Int))
    else if c = '+' then (parseDigitsLe 9223372036854775807 r).map (fun v => (v : Int))
    else (parseDigitsLe 9223372036854775807 (c :: r)).map (fun v => (v : Int))

/-- `format!("{:0<19}", s)`: left-align and right-pad with `0` to width 19. -/
def padRight19 (s : List Char) : List Char :=
  s ++ List.replicate (19 - s.length) '0'

/-- `format!("{:0>19}", s)`: right-align and left-pad with `0` to width 19. -/
def padLeft19 (s : List Char) : List Char :=
  List.replicate (19 - s.length) '0' ++ s

/-- The literal boundary string one below `i64::MIN`. -/
def minBoundChars : List Char := ("-9223372036854775809").toList

/-- The literal boundary string one above `i64::MAX`. -/
def maxBoundChars : List Char := ("9223372036854775808").toList

namespace RocDec

/-- `TryFrom<&str> for RocDec` from `lib.rs`: split on `.` (exactly one dot
required), right-pad the fraction to 19 digits and parse it as `u64`, parse
the whole segment as `i64`, falling back to the two literal boundary strings
with `checked_add(DECIMAL_MAX)` folded into the fraction word.  `none`
models `Err(())`. -/
def tryFrom (s : List Char) : Option RocDec :=
  match splitCh '.' s with
  | [before_point, after_point] =>
    match parseU64 (padRight19 after_point) with
    | none => none
    | some lo =>
      match parseI64 before_point with
      | some hi => some ⟨hi, lo⟩
      | none =>
        if before_point = minBoundChars then
          if lo + DECIMAL_MAX ≤ U64MAX then some ⟨I64MIN, lo + DECIMAL_MAX⟩
          else none
        else if before_point = maxBoundChars then
          if lo + DECIMAL_MAX ≤ U64MAX then some ⟨I64MAX, lo + DECIMAL_MAX⟩
          else none
        else none
  | _ => none

end RocDec

/-! ### Text codec: rendering (`RocDec::to_string`) -/

/-- Decimal digits of a natural number (standard `Nat.toDigits 10`),
rendering `0` as `"0"`. -/
def natChars (n : Nat) : List Char := Nat.toDigits 10 n

/-- Rust's `i64::to_string` / `u64::to_string` on an `Int`. -/
def intChars (i : Int) : List Char :=
  if i < 0 then '-' :: natChars i.natAbs else natChars i.natAbs

/-- `str::trim_matches(c)`: strip the character from both ends. -/
def trimCh (c : Char) (s : List Char) : List Char :=
  ((s.dropWhile (· = c)).reverse.dropWhile (· = c)).reverse

namespace RocDec

/-- `RocDec::to_string` from `lib.rs`: normalize a fraction word that is at
least `DECIMAL_MAX` by subtracting `DECIMAL_MAX` and moving one unit into the
whole word (as a `u64` increment when `hi` is positive, an `i64` decrement
otherwise, with the two literal strings for the `i64::MIN` edge case), then
render `.0` for a zero fraction or the left-padded fraction with trailing
zeros trimmed. -/
def toText (a : RocDec) : List Char :=
  let lo_offset := if DECIMAL_MAX ≤ a.lo then DECIMAL_MAX else 0
  let after_point := a.lo - lo_offset
  let before :=
    if 0 < a.hi then
      let hi_offset : Nat := if lo_offset = 0 then 0 else 1
      natChars (a.hi.natAbs + hi_offset)
    else if a.hi ≠ I64MIN then
      let hi_offset : Int := if lo_offset = 0 then 0 else 1
      intChars (a.hi - hi_offset)
    else if lo_offset = 0 then ("-9223372036854775808").toList
    else ("-9223372036854775809").toList
  if after_point = 0 then before ++ [ '.', '0' ]
  else before ++ trimCh '0' ( '.' :: padLeft19 (natChars after_point))

end RocDec

/-- The decimal value of a `RocDec` in units of `10^-19` (the spec's logical
value `whole + sign(whole) * fraction / 10^19`, scaled to an integer; a zero
whole word counts as non-negative). -/
def decValue (a : RocDec) : Int :=
  if a.hi < 0 then -((-a.hi) * (RocDec.DECIMAL_MAX : Int) + (a.lo : Int))
  else a.hi * (RocDec.DECIMAL_MAX : Int) + (a.lo : Int)

/-! ### Claim theorems -/

namespace RocDec

/-- Claim C1 (code bug): `mul` is claimed to return the exact product
truncated to 19 fractional digits whenever neither whole word is `i64::MIN`
and the exact product is representable.  At `2.3 * 3.9` (whole words `2` and
`3`, well inside range; exact product `8.97`) the code returns
`8.1253255926290448384`: the low-column carry past `2^64` is propagated into
the whole word as one unit of `10^19`, although it is worth `2^64`. -/
theorem c1_mul_carry_bug :
    mul ⟨2, 3000000000000000000⟩ ⟨3, 9000000000000000000⟩ =
      some ⟨8, 1253255926290448384⟩ ∧
    decValue ⟨8, 1253255926290448384⟩ ≠
      decValue ⟨2, 3000000000000000000⟩ * decValue ⟨3, 9000000000000000000⟩ /
        (DECIMAL_MAX : Int) := by
  decide

/-- Claim C2 (code bug): the round-trip law fails at the representable value
`new(0, 10^19)` (decimal value `+1`).  `to_text` renders it as `"-1.0"`, so
the re-parsed value `new(-1, 0)` has decimal value `-1`, not the same decimal
value as the original. -/
theorem c2_roundtrip_value_bug :
    toText ⟨0, 10000000000000000000⟩ = ("-1.0").toList ∧
    tryFrom (toText ⟨0, 10000000000000000000⟩) = some ⟨-1, 0⟩ ∧
    decValue ⟨-1, 0⟩ ≠ decValue ⟨0, 10000000000000000000⟩ := by
  decide

/-- Claim C5 (code bug): multiplying by one (whole word `1`, fraction `0`) is
claimed to return the other operand unchanged.  The `i64::MIN` special case
returns the signed-minimum operand with its fraction word zeroed
(`new(i64::MIN, 5) * 1 = new(i64::MIN, 0)`), and
`mul(new(i64::MAX, u64::MAX), new(1, 0))` hits the overflow guard and panics
(modelled as `none`) instead of returning the operand. -/
theorem c5_mul_one_bug :
    mul ⟨I64MIN, 5⟩ ⟨1, 0⟩ = some ⟨I64MIN, 0⟩ ∧
    (⟨I64MIN, 0⟩ : RocDec) ≠ ⟨I64MIN, 5⟩ ∧
    mul ⟨I64MAX, U64MAX⟩ ⟨1, 0⟩ = none := by
  decide

/-- Claim C6 (code bug): normalization in `to_text` is claimed to increment
the whole part when the whole word is non-negative, zero counting as
non-negative.  At `new(0, 10^19)` (decimal value `+1`) the zero whole word
falls into the not-positive branch and is decremented, rendering `"-1.0"`
instead of `"1.0"`. -/
theorem c6_to_text_zero_whole_bug :
    toText ⟨0, 10000000000000000000⟩ = ("-1.0").toList ∧
    toText ⟨0, 10000000000000000000⟩ ≠ ("1.0").toList := by
  decide

/-- Claim C3 counterexample: `decimalize` is claimed to return exactly
`(n / 10^19, n % 10^19)` for every 128-bit input, but the quotient is
truncated to `u64` by `res.as_u64()`.  At `n = 2^64 * 10^19` (a valid 128-bit
value) the true quotient `2^64` wraps to `0` and the function returns
`(0, 0)`. -/
theorem c3_decimalize_truncation :
    decimalize (2 ^ 64 * DECIMAL_MAX) = (0, 0) ∧
    2 ^ 64 * DECIMAL_MAX / DECIMAL_MAX ≠ 0 := by
  decide

/-- Claim C8 counterexample: with the boundary whole segment
`-9223372036854775809`, a one-digit numeric fraction `9` (value
`0.9`, padded fraction word `9 * 10^18`) makes `checked_add(DECIMAL_MAX)`
overflow `u64`, so parsing fails although the claim says every numeric
fraction of at most 19 digits succeeds. -/
theorem c8_boundary_fraction_overflow :
    tryFrom (("-9223372036854775809.9").toList) = none := by
  decide

/-- Claim C9 counterexample: a fraction segment of 20 digits whose value fits
in `u64` is accepted, contradicting the claim that more than 19 digits always
fails: `"0.10000000000000000000"` parses to `new(0, 10^19)`. -/
theorem c9_twenty_digit_fraction_ok :
    tryFrom (("0.10000000000000000000").toList) =
      some ⟨0, 10000000000000000000⟩ := by
  decide

end RocDec

/-! ### Helper lemmas about splitting and digit parsing -/

/-- Splitting a list that does not contain the separator yields one segment. -/
theorem splitCh_not_mem {c : Char} {B : List Char} (h : c ∉ B) :
    splitCh c B = [B] := by
  induction B with
  | nil => rfl
  | cons x xs ih =>
    simp only [List.mem_cons, not_or] at h
    simp only [splitCh, if_neg (Ne.symm h.1), ih h.2]

/-- Splitting peels off a separator-free prefix before the first separator. -/
theorem splitCh_append {c : Char} {A : List Char} (B : List Char) (h : c ∉ A) :
    splitCh c (A ++ c :: B) = A :: splitCh c B := by
  induction A with
  | nil => simp [splitCh]
  | cons x xs ih =>
    simp only [List.mem_cons, not_or] at h
    show splitCh c (x :: (xs ++ c :: B)) = (x :: xs) :: splitCh c B
    rw [splitCh, if_neg (Ne.symm h.1), ih h.2]

/-- Every character consumed by `digitsToNat` is a decimal digit. -/
theorem digitsToNat_digits {s : List Char} {acc v : Nat}
    (h : digitsToNat acc s = some v) : ∀ x ∈ s, '0' ≤ x ∧ x ≤ '9' := by
  induction s generalizing acc with
  | nil => simp
  | cons c cs ih =>
    intro x hx
    simp only [digitsToNat, digitVal] at h
    by_cases hc : '0' ≤ c ∧ c ≤ '9'
    · rw [if_pos hc] at h
      rcases List.mem_cons.mp hx with rfl | hx2
      · exact hc
      · exact ih h x hx2
    · rw [if_neg hc] at h
      exact absurd h (by simp)

/-- A successful bounded digit parse consumes only decimal digits. -/
theorem parseDigitsLe_digits {bound : Nat} {t : List Char} {v : Nat}
    (h : parseDigitsLe bound t = some v) : ∀ x ∈ t, '0' ≤ x ∧ x ≤ '9' := by
  unfold parseDigitsLe at h
  split at h
  · exact absurd h (by simp)
  · rcases hd : digitsToNat 0 t with _ | w
    · rw [hd] at h
      exact absurd h (by simp)
    · exact fun x hx => digitsToNat_digits hd x hx

/-- A successfully `i64`-parsed segment contains no `.` character. -/
theorem parseI64_no_dot {s : List Char} {v : Int} (h : parseI64 s = some v) :
    '.' ∉ s := by
  have hdig : ∀ t : List Char, ∀ b w : Nat,
      parseDigitsLe b t = some w → '.' ∉ t := by
    intro t b w ht hmem
    exact absurd (parseDigitsLe_digits ht _ hmem).1 (by decide)
  rcases s with _ | ⟨x, r⟩
  · simp
  · simp only [parseI64] at h
    by_cases hx : x = '-'
    · rw [if_pos hx] at h
      rcases hp : parseDigitsLe 9223372036854775808 r with _ | w
      · rw [hp] at h
        exact absurd h (by simp)
      · intro hmem
        rcases List.mem_cons.mp hmem with heq | hmem2
        · rw [← heq] at hx
          exact absurd hx (by decide)
        · exact hdig r _ w hp hmem2
    · rw [if_neg hx] at h
      by_cases hx2 : x = '+'
      · rw [if_pos hx2] at h
        rcases hp : parseDigitsLe 9223372036854775807 r with _ | w
        · rw [hp] at h
          exact absurd h (by simp)
        · intro hmem
          rcases List.mem_cons.mp hmem with heq | hmem2
          · rw [← heq] at hx2
            exact absurd hx2 (by decide)
          · exact hdig r _ w hp hmem2
      · rw [if_neg hx2] at h
        rcases hp : parseDigitsLe 9223372036854775807 (x :: r) with _ | w
        · rw [hp] at h
          exact absurd h (by simp)
        · exact hdig (x :: r) _ w hp

/-- `parseU64` succeeds on a nonempty all-digit numeral whose value fits. -/
theorem parseU64_of_digits {s : List Char} {v : Nat}
    (hd : ∀ x ∈ s, '0' ≤ x ∧ x ≤ '9') (hne : s ≠ [])
    (hval : digitsToNat 0 s = some v) (hb : v ≤ RocDec.U64MAX) :
    parseU64 s = some v := by
  rcases s with _ | ⟨c, r⟩
  · exact absurd rfl hne
  · have hc : ¬(c = '+') := by
      intro hc
      have := (hd c (by simp)).1
      rw [hc] at this
      exact absurd this (by decide)
    simp only [parseU64, if_neg hc, parseDigitsLe]
    rw [if_neg (by simp), hval]
    simp [hb]

/-- The right-zero-padded fraction segment is never empty. -/
theorem padRight19_ne_nil (s : List Char) : padRight19 s ≠ [] := by
  rcases s with _ | ⟨c, r⟩
  · simp [padRight19, List.replicate]
  · simp [padRight19]

/-- Padding an all-digit segment with `0` keeps every character a digit. -/
theorem padRight19_digits {s : List Char}
    (hd : ∀ x ∈ s, '0' ≤ x ∧ x ≤ '9') :
    ∀ x ∈ padRight19 s, '0' ≤ x ∧ x ≤ '9' := by
  intro x hx
  rcases List.mem_append.mp hx with hx | hx
  · exact hd x hx
  · rw [List.eq_of_mem_replicate hx]
    exact ⟨le_refl _, by decide⟩

/-- An all-digit segment contains no `.` character. -/
theorem digits_no_dot {s : List Char}
    (hd : ∀ x ∈ s, '0' ≤ x ∧ x ≤ '9') : '.' ∉ s := by
  intro hmem
  exact absurd (hd _ hmem).1 (by decide)

namespace RocDec

/-- Claim C10 (confirmed): any whole segment that parses as `i64`, followed
by a dot and an empty fraction segment, is accepted: the empty fraction is
right-padded to nineteen `0` characters and parses to fraction word `0`. -/
theorem c10_empty_fraction_parses (w : List Char) (v : Int)
    (h : parseI64 w = some v) :
    tryFrom (w ++ [ '.' ]) = some ⟨v, 0⟩ := by
  have hdot : '.' ∉ w := parseI64_no_dot h
  have hs : splitCh '.' (w ++ '.' :: ([] : List Char)) = [w, []] := by
    rw [splitCh_append _ hdot]
    rfl
  unfold tryFrom
  rw [hs]
  have hpad : parseU64 (padRight19 []) = some 0 := by decide
  simp [hpad, h]

/-- Witness for C10 at the concrete input `"1."`. -/
theorem c10_empty_fraction_parses_witness :
    tryFrom (("1").toList ++ [ '.' ]) = some ⟨1, 0⟩ :=
  c10_empty_fraction_parses (("1").toList) 1 (by decide)

/-- Claim C9 (amended): whenever the fraction segment, right-padded with `0`
to 19 characters, fails to parse as a `u64` (a non-digit character, or a
numeric value above `u64::MAX`), the whole parse fails — digit count alone
does not decide failure. -/
theorem c9_fraction_unparseable_fails (pre frac : List Char)
    (hpre : '.' ∉ pre) (hfrac : '.' ∉ frac)
    (hfail : parseU64 (padRight19 frac) = none) :
    tryFrom (pre ++ '.' :: frac) = none := by
  unfold tryFrom
  rw [splitCh_append frac hpre, splitCh_not_mem hfrac]
  simp [hfail]

/-- Witness for C9 at the concrete input `"0.x"`. -/
theorem c9_fraction_unparseable_fails_witness :
    tryFrom (( "0" ).toList ++ '.' :: ( "x" ).toList) = none :=
  c9_fraction_unparseable_fails _ _ (by decide) (by decide) (by decide)

/-- Claim C8 (amended): a boundary whole segment (`"-9223372036854775809"` or
`"9223372036854775808"`) followed by an all-digit fraction of at most 19
digits parses via the special case — whole word pinned to the signed extreme
and `DECIMAL_MAX` folded into the fraction word — provided the padded
fraction value `v` satisfies `v + DECIMAL_MAX ≤ u64::MAX`; and the literal
scenario `"-9223372036854775809.8446744073709551615"` round-trips. -/
theorem c8_boundary_parse_amended (frac : List Char) (v : Nat)
    (hdig : ∀ x ∈ frac, '0' ≤ x ∧ x ≤ '9')
    (hlen : frac.length ≤ 19)
    (hv : digitsToNat 0 (padRight19 frac) = some v)
    (hbound : v + DECIMAL_MAX ≤ U64MAX) :
    tryFrom (minBoundChars ++ '.' :: frac) = some ⟨I64MIN, v + DECIMAL_MAX⟩ ∧
    tryFrom (maxBoundChars ++ '.' :: frac) = some ⟨I64MAX, v + DECIMAL_MAX⟩ ∧
    toText ⟨I64MIN, U64MAX⟩ =
      ("-9223372036854775809.8446744073709551615").toList ∧
    tryFrom (toText ⟨I64MIN, U64MAX⟩) = some ⟨I64MIN, U64MAX⟩ := by
  have hfrac : '.' ∉ frac := digits_no_dot hdig
  have hu : parseU64 (padRight19 frac) = some v :=
    parseU64_of_digits (padRight19_digits hdig) (padRight19_ne_nil frac) hv
      (le_trans (Nat.le_add_right _ _) hbound)
  have hmin : parseI64 minBoundChars = none := by decide
  have hmax : parseI64 maxBoundChars = none := by decide
  refine ⟨?_, ?_, by decide, by decide⟩
  · unfold tryFrom
    rw [splitCh_append frac (by decide), splitCh_not_mem hfrac]
    simp [hu, hmin, hbound]
  · unfold tryFrom
    rw [splitCh_append frac (by decide), splitCh_not_mem hfrac]
    have hne : maxBoundChars ≠ minBoundChars := by decide
    simp [hu, hmax, hne, hbound]

/-- Witness for C8 at the concrete fraction `"5"`. -/
theorem c8_boundary_parse_amended_witness :
    tryFrom (minBoundChars ++ '.' :: ( "5" ).toList) =
      some ⟨I64MIN, 5000000000000000000 + DECIMAL_MAX⟩ :=
  (c8_boundary_parse_amended (( "5" ).toList) 5000000000000000000 (by decide)
    (by decide) (by decide) (by decide)).1

end RocDec

namespace RocDec

/-- Claim C7 counterexample: the sign law fails on the code in both
directions.  `(-1.0) * 0.5` has exactly one negative operand and neither
operand zero, yet the result `new(0, 5*10^18)` is non-negative (a negative
value of magnitude below one cannot carry its sign in a zero whole word);
and `(-1.0) * i64::MIN` has two negative operands yet returns the negative
value `new(i64::MIN, 0)`. -/
theorem c7_sign_law_counterexample :
    mul ⟨-1, 0⟩ ⟨0, 5000000000000000000⟩ = some ⟨0, 5000000000000000000⟩ ∧
    ¬((0 : Int) < 0) ∧
    ((-1 : Int) < 0 ∧ ¬((0 : Int) < 0)) ∧
    decValue ⟨-1, 0⟩ ≠ 0 ∧ decValue ⟨0, 5000000000000000000⟩ ≠ 0 ∧
    mul ⟨-1, 0⟩ ⟨I64MIN, 0⟩ = some ⟨I64MIN, 0⟩ ∧
    I64MIN < 0 ∧ ((-1 : Int) < 0 ∧ I64MIN < 0) := by
  decide

/-- Claim C7 (amended): for operands whose whole words are not `i64::MIN`,
a successful `mul` returns a negative whole word iff exactly one operand is
negative and the result's whole word is nonzero. -/
theorem c7_sign_law_amended (a b r : RocDec)
    (ha : a.hi ≠ I64MIN) (hb : b.hi ≠ I64MIN) (h : mul a b = some r) :
    r.hi < 0 ↔ (¬((a.hi < 0) ↔ (b.hi < 0)) ∧ r.hi ≠ 0) := by
  unfold mul at h
  rw [if_neg ha, if_neg hb] at h
  rcases hm : mulCore a.hi.natAbs a.lo b.hi.natAbs b.lo with _ | ⟨c, b'⟩
  · rw [hm] at h
    exact absurd h (by simp)
  · rw [hm] at h
    simp only [Option.some.injEq] at h
    subst h
    by_cases hs : (a.hi < 0) ↔ (b.hi < 0)
    · simp only [if_pos hs]
      constructor
      · intro hlt
        exact absurd hlt (by omega)
      · intro hcontr
        exact absurd hs hcontr.1
    · simp only [if_neg hs]
      constructor
      · intro hlt
        exact ⟨hs, by omega⟩
      · intro hcontr
        omega

/-- Witness for the amended C7 at `(-1.0) * 2.0 = -2.0`. -/
theorem c7_sign_law_amended_witness :
    mul ⟨-1, 0⟩ ⟨2, 0⟩ = some ⟨-2, 0⟩ ∧
    ((⟨-2, 0⟩ : RocDec).hi < 0 ↔
      (¬((((-1 : Int)) < 0) ↔ (((2 : Int)) < 0)) ∧ (⟨-2, 0⟩ : RocDec).hi ≠ 0)) :=
  ⟨by decide,
   c7_sign_law_amended ⟨-1, 0⟩ ⟨2, 0⟩ ⟨-2, 0⟩ (by decide) (by decide) (by decide)⟩

end RocDec

namespace RocDec

/-- Claim C4 counterexample: with `a = new(0, 1)` and `b = new(1, 1)` neither
`add` nor `sub` overflows, yet `sub(add(a, b), b) = new(-1, u64::MAX) ≠ a`:
the zero whole word of `a` counts as not-positive, so `add` takes the
different-sign low-word path while the `sub` of the positive intermediate
takes the same-sign path, and the two are not inverse. -/
theorem c4_add_sub_counterexample :
    add ⟨0, 1⟩ ⟨1, 1⟩ = some ⟨1, 0⟩ ∧
    sub ⟨1, 0⟩ ⟨1, 1⟩ = some ⟨-1, U64MAX⟩ ∧
    (⟨-1, U64MAX⟩ : RocDec) ≠ ⟨0, 1⟩ := by
  decide

/-- Claim C4 (amended): `sub(add(a, b), b) == a` holds whenever the two
operands' whole words are in the same `is_positive` class (both positive, or
both non-positive) and neither operation overflows. -/
theorem c4_sub_add_cancel_same_class (a b r r2 : RocDec)
    (ha : a.lo < U64MOD) (hb : b.lo < U64MOD)
    (hsign : 0 < a.hi ↔ 0 < b.hi)
    (h1 : add a b = some r) (h2 : sub r b = some r2) : r2 = a := by
  obtain ⟨ahi, alo⟩ := a
  obtain ⟨bhi, blo⟩ := b
  simp only [U64MOD] at ha hb
  simp only [add, U64MOD, I64MIN, I64MAX] at h1
  simp only at hsign
  by_cases hp : 0 < ahi
  · have hq : 0 < bhi := hsign.mp hp
    by_cases hov : 18446744073709551616 ≤ alo + blo
    · simp only [hp, hq, hov, decide_True, if_true] at h1
      split at h1
      · simp only [Option.some.injEq] at h1
        subst h1
        simp only [sub, U64MOD, I64MIN, I64MAX] at h2
        have hrpos : 0 < ahi + 1 + bhi := by omega
        have hlt : (alo + blo) % 18446744073709551616 < blo := by omega
        simp only [hrpos, hq, hlt, decide_True, if_true] at h2
        split at h2
        · simp only [Option.some.injEq] at h2
          subst h2
          have hhi : ahi + 1 + bhi - 1 - bhi = ahi := by omega
          have hlo : ((alo + blo) % 18446744073709551616 + 18446744073709551616 -
              blo % 18446744073709551616) % 18446744073709551616 = alo := by omega
          rw [hhi, hlo]
        · exact absurd h2 (by simp)
      · exact absurd h1 (by simp)
    · simp only [hp, hq, hov, decide_True, decide_False, Bool.false_eq_true, if_true, if_false] at h1
      split at h1
      · simp only [Option.some.injEq] at h1
        subst h1
        simp only [sub, U64MOD, I64MIN, I64MAX] at h2
        have hrpos : 0 < ahi + 0 + bhi := by omega
        have hlt : ¬((alo + blo) % 18446744073709551616 < blo) := by omega
        simp only [hrpos, hq, hlt, decide_True, decide_False, Bool.false_eq_true, if_true, if_false] at h2
        split at h2
        · simp only [Option.some.injEq] at h2
          subst h2
          have hhi : ahi + 0 + bhi - 0 - bhi = ahi := by omega
          have hlo : ((alo + blo) % 18446744073709551616 + 18446744073709551616 -
              blo % 18446744073709551616) % 18446744073709551616 = alo := by omega
          rw [hhi, hlo]
        · exact absurd h2 (by simp)
      · exact absurd h1 (by simp)
  · have hq : ¬(0 < bhi) := fun hq => hp (hsign.mpr hq)
    by_cases hov : 18446744073709551616 ≤ alo + blo
    · simp only [hp, hq, hov, decide_True, decide_False, Bool.false_eq_true, if_true, if_false] at h1
      split at h1
      · simp only [Option.some.injEq] at h1
        subst h1
        simp only [sub, U64MOD, I64MIN, I64MAX] at h2
        have hrpos : ¬(0 < ahi + -1 + bhi) := by omega
        have hlt : (alo + blo) % 18446744073709551616 < blo := by omega
        simp only [hrpos, hq, hlt, decide_True, decide_False, Bool.false_eq_true, if_true, if_false] at h2
        split at h2
        · simp only [Option.some.injEq] at h2
          subst h2
          have hhi : ahi + -1 + bhi - -1 - bhi = ahi := by omega
          have hlo : ((alo + blo) % 18446744073709551616 + 18446744073709551616 -
              blo % 18446744073709551616) % 18446744073709551616 = alo := by omega
          rw [hhi, hlo]
        · exact absurd h2 (by simp)
      · exact absurd h1 (by simp)
    · simp only [hp, hq, hov, decide_True, decide_False, Bool.false_eq_true, if_true, if_false] at h1
      split at h1
      · simp only [Option.some.injEq] at h1
        subst h1
        simp only [sub, U64MOD, I64MIN, I64MAX] at h2
        have hrpos : ¬(0 < ahi + 0 + bhi) := by omega
        have hlt : ¬((alo + blo) % 18446744073709551616 < blo) := by omega
        simp only [hrpos, hq, hlt, decide_True, decide_False, Bool.false_eq_true, if_true, if_false] at h2
        split at h2
        · simp only [Option.some.injEq] at h2
          subst h2
          have hhi : ahi + 0 + bhi - 0 - bhi = ahi := by omega
          have hlo : ((alo + blo) % 18446744073709551616 + 18446744073709551616 -
              blo % 18446744073709551616) % 18446744073709551616 = alo := by omega
          rw [hhi, hlo]
        · exact absurd h2 (by simp)
      · exact absurd h1 (by simp)

/-- Witness for the amended C4 at `a = 1.0000000000000000005`,
`b = 2.0000000000000000007`. -/
theorem c4_sub_add_cancel_same_class_witness :
    add ⟨1, 5⟩ ⟨2, 7⟩ = some ⟨3, 12⟩ ∧ sub ⟨3, 12⟩ ⟨2, 7⟩ = some ⟨1, 5⟩ ∧
    (⟨1, 5⟩ : RocDec) = ⟨1, 5⟩ :=
  ⟨by decide, by decide,
   c4_sub_add_cancel_same_class ⟨1, 5⟩ ⟨2, 7⟩ ⟨3, 12⟩ ⟨1, 5⟩ (by decide)
     (by decide) (by decide) (by decide) (by decide)⟩

end RocDec

/-- Granlund–Montgomery style correctness of division by multiply-then-shift:
if `C * d = N + r` and the worst case `qmax * r + (d - 1) * C` stays below
`N`, then `n * C / N` is exactly `n / d` for every `n` with `n / d ≤ qmax`. -/
theorem mulShift_div (d C N r qmax : Nat) {n : Nat} (hd : 0 < d) (hN : 0 < N)
    (hCd : C * d = N + r) (hqb : n / d ≤ qmax)
    (hbound : qmax * r + (d - 1) * C < N) :
    n * C / N = n / d := by
  have hqs := Nat.div_add_mod n d
  have hs : n % d < d := Nat.mod_lt _ hd
  have expand : n * C = (n / d) * N + ((n / d) * r + (n % d) * C) := by
    calc n * C = (d * (n / d) + n % d) * C := by rw [hqs]
    _ = (n / d) * (C * d) + (n % d) * C := by ring
    _ = (n / d) * (N + r) + (n % d) * C := by rw [hCd]
    _ = (n / d) * N + ((n / d) * r + (n % d) * C) := by ring
  have hsmall : (n / d) * r + (n % d) * C < N := by
    have ha : (n / d) * r ≤ qmax * r := Nat.mul_le_mul_right _ hqb
    have hb : (n % d) * C ≤ (d - 1) * C := Nat.mul_le_mul_right _ (by omega)
    omega
  rw [expand, Nat.add_comm, Nat.add_mul_div_right _ _ hN, Nat.div_eq_of_lt hsmall]
  omega

/-- Claim C3 (amended): `decimalize` is bit-exact — returning exactly
`(n / 10^19, n % 10^19)` — for every 128-bit input `n` whose quotient
`n / 10^19` fits in a `u64`; for larger quotients the high word is truncated
modulo `2^64`. -/
theorem c3_decimalize_exact (n : Nat) (h1 : n < 2 ^ 128)
    (h2 : n / RocDec.DECIMAL_MAX < 2 ^ 64) :
    decimalize n = (n / RocDec.DECIMAL_MAX, n % RocDec.DECIMAL_MAX) := by
  have hqb : n / RocDec.DECIMAL_MAX ≤ 34028236692093846346 := by
    have hstep : n / RocDec.DECIMAL_MAX ≤ (2 ^ 128 - 1) / RocDec.DECIMAL_MAX :=
      Nat.div_le_div_right (by omega)
    have hval : (2 ^ 128 - 1) / RocDec.DECIMAL_MAX = 34028236692093846346 := by decide
    omega
  have hshift : n * RECIP / 2 ^ 190 = n / RocDec.DECIMAL_MAX :=
    mulShift_div RocDec.DECIMAL_MAX RECIP (2 ^ 190) 4411138883991371776
      34028236692093846346 (by decide) (by decide) (by decide) hqb (by decide)
  have hm : n * RECIP % 2 ^ 256 = n * RECIP := by
    have hle : n * RECIP ≤ (2 ^ 128 - 1) * RECIP := Nat.mul_le_mul_right _ (by omega)
    have hlt : (2 ^ 128 - 1) * RECIP < 2 ^ 256 := by decide
    exact Nat.mod_eq_of_lt (by omega)
  have hres : n * RECIP % 2 ^ 256 / 2 ^ 190 % 2 ^ 64 = n / RocDec.DECIMAL_MAX := by
    rw [hm, hshift, Nat.mod_eq_of_lt h2]
  have hqd : n / RocDec.DECIMAL_MAX * RocDec.DECIMAL_MAX ≤ n :=
    Nat.div_mul_le_self n RocDec.DECIMAL_MAX
  have hqd2 : n / RocDec.DECIMAL_MAX * RocDec.DECIMAL_MAX % 2 ^ 128 =
      n / RocDec.DECIMAL_MAX * RocDec.DECIMAL_MAX :=
    Nat.mod_eq_of_lt (by omega)
  have hmod : n % RocDec.DECIMAL_MAX < RocDec.DECIMAL_MAX := Nat.mod_lt _ (by decide)
  have hsplit : n / RocDec.DECIMAL_MAX * RocDec.DECIMAL_MAX + n % RocDec.DECIMAL_MAX =
      n := Nat.div_add_mod' n RocDec.DECIMAL_MAX
  have hdlt : RocDec.DECIMAL_MAX < 2 ^ 64 := by decide
  have hdlt2 : (2 : Nat) ^ 64 < 2 ^ 128 := by decide
  have hlo : (n + 2 ^ 128 - n / RocDec.DECIMAL_MAX * RocDec.DECIMAL_MAX % 2 ^ 128) %
      2 ^ 128 % 2 ^ 64 = n % RocDec.DECIMAL_MAX := by
    rw [hqd2]
    have hrw : n + 2 ^ 128 - n / RocDec.DECIMAL_MAX * RocDec.DECIMAL_MAX =
        n % RocDec.DECIMAL_MAX + 2 ^ 128 := by omega
    rw [hrw, Nat.add_mod_right]
    have ha : n % RocDec.DECIMAL_MAX % 2 ^ 128 = n % RocDec.DECIMAL_MAX :=
      Nat.mod_eq_of_lt (by omega)
    rw [ha]
    exact Nat.mod_eq_of_lt (by omega)
  simp only [decimalize, Prod.mk.injEq]
  exact ⟨hres, by rw [hres, hlo]⟩

/-- Witness for the amended C3 at a concrete 128-bit input. -/
theorem c3_decimalize_exact_witness :
    40000000000000000000000000000000000123 < 2 ^ 128 ∧
    decimalize 40000000000000000000000000000000000123 =
      (40000000000000000000000000000000000123 / RocDec.DECIMAL_MAX,
        40000000000000000000000000000000000123 % RocDec.DECIMAL_MAX) :=
  ⟨by decide, c3_decimalize_exact _ (by decide) (by decide)⟩
